import Mathlib

/-!
Verification development for the HTTP audit-logging interceptor in
`pkg/auth/audit/audit.go`: JSON redaction (`concealSensitiveData`,
`concealMap`), header filtering (`filterOutHeaders`, `isExist`), request-body
capture (`readBodyWithoutLosingContent`) and audit-record assembly
(`newAuditLog`, `write`).

The Go code manipulates generic JSON (`map[string]interface{}` produced by
`encoding/json`).  We embed JSON as an inductive `Json` type; objects are
association lists (Go maps have unique keys; `json.Marshal` sorts map keys,
an ordering detail the model abstracts by keeping field order — no property
below depends on key order).  `json.Unmarshal` / `json.Marshal` /
`json.Compact` are modelled by an executable parser `parseTop` and compact
serializer `Json.serialize`.
-/

namespace Audit

/-- Generic JSON value: the decoding target of `encoding/json` into
`interface{}`.  Numbers are kept as their raw source token; the audit code
never reads a number's value. -/
inductive Json where
  | null
  | bool (b : Bool)
  | num (tok : String)
  | str (s : String)
  | arr (elems : List Json)
  | obj (fields : List (String × Json))

/-- Characters allowed in a (model) number token. -/
def numChar (c : Char) : Bool :=
  c.isDigit || c == '-' || c == '+' || c == '.' || c == 'e' || c == 'E'

/-- Escape a single character for a JSON string literal.  The model escapes
the two structurally significant characters; `json.Marshal` additionally
escapes control and HTML characters, which no property below observes. -/
def escChar (c : Char) : List Char :=
  if c = '"' ∨ c = '\\' then ['\\', c] else [c]

def escList : List Char → List Char
  | [] => []
  | c :: cs => escChar c ++ escList cs

/-- Serialized JSON string literal (quotes included). -/
def serStr (s : String) : List Char :=
  '"' :: (escList s.data ++ ['"'])

mutual
/-- Compact serialization, modelling the shape of `json.Marshal` output. -/
def Json.ser : Json → List Char
  | .null => "null".data
  | .bool true => "true".data
  | .bool false => "false".data
  | .num tok => tok.data
  | .str s => serStr s
  | .arr es => '[' :: (Json.serElems es ++ [']'])
  | .obj fs => '{' :: (Json.serFields fs ++ ['}'])

def Json.serElems : List Json → List Char
  | [] => []
  | [v] => Json.ser v
  | v :: vs => Json.ser v ++ ',' :: Json.serElems vs

def Json.serFields : List (String × Json) → List Char
  | [] => []
  | [(k, v)] => serStr k ++ ':' :: Json.ser v
  | (k, v) :: fs => serStr k ++ ':' :: Json.ser v ++ ',' :: Json.serFields fs
end

def Json.serialize (v : Json) : String := ⟨Json.ser v⟩

mutual
/-- Well-formedness of a model JSON value: number tokens are nonempty runs
of number characters.  Every parser output is well-formed, and well-formed
values serialize to text that parses back to the same value. -/
def wfJson : Json → Bool
  | .num tok => !tok.data.isEmpty && tok.data.all numChar
  | .arr es => wfElems es
  | .obj fs => wfFields fs
  | _ => true

def wfElems : List Json → Bool
  | [] => true
  | v :: vs => wfJson v && wfElems vs

def wfFields : List (String × Json) → Bool
  | [] => true
  | kv :: fs => wfJson kv.2 && wfFields fs
end

/-- JSON insignificant whitespace. -/
def isWs (c : Char) : Bool :=
  c == '\t' || c == '\n' || c == '\r' || c == ' '

def skipWs : List Char → List Char
  | [] => []
  | c :: cs => if isWs c then skipWs cs else c :: cs

/-- Unescape the character following a backslash in a string literal. -/
def unescChar (c : Char) : Option Char :=
  if c = '"' ∨ c = '\\' ∨ c = '/' then some c
  else if c = 'n' then some '\n'
  else if c = 't' then some '\t'
  else if c = 'r' then some '\r'
  else none

/-- Read the characters of a JSON string literal after the opening quote,
consuming the closing quote. -/
def strChars : List Char → Option (List Char × List Char)
  | [] => none
  | c :: cs =>
    if c = '"' then some ([], cs)
    else if c = '\\' then
      match cs with
      | [] => none
      | e :: cs' =>
        match unescChar e, strChars cs' with
        | some d, some r => some (d :: r.1, r.2)
        | _, _ => none
    else
      match strChars cs with
      | some r => some (c :: r.1, r.2)
      | none => none

/-- Expect a literal character sequence, returning the remaining input. -/
def dropLit : List Char → List Char → Option (List Char)
  | [], cs => some cs
  | _ :: _, [] => none
  | l :: ls, c :: cs => if c = l then dropLit ls cs else none

mutual
/-- Fuel-bounded recursive-descent JSON parser (model of `json.Unmarshal`
into `interface{}`). -/
def parseVal : Nat → List Char → Option (Json × List Char)
  | 0, _ => none
  | fuel + 1, cs =>
    match skipWs cs with
    | [] => none
    | c :: rest =>
      if c = '{' then
        match skipWs rest with
        | [] => none
        | d :: r2 =>
          if d = '}' then some (.obj [], r2)
          else
            match parseMembers fuel (d :: r2) with
            | some r => some (.obj r.1, r.2)
            | none => none
      else if c = '[' then
        match skipWs rest with
        | [] => none
        | d :: r2 =>
          if d = ']' then some (.arr [], r2)
          else
            match parseItems fuel (d :: r2) with
            | some r => some (.arr r.1, r.2)
            | none => none
      else if c = '"' then
        match strChars rest with
        | some r => some (.str ⟨r.1⟩, r.2)
        | none => none
      else if c = 't' then
        match dropLit ['r', 'u', 'e'] rest with
        | some r => some (.bool true, r)
        | none => none
      else if c = 'f' then
        match dropLit ['a', 'l', 's', 'e'] rest with
        | some r => some (.bool false, r)
        | none => none
      else if c = 'n' then
        match dropLit ['u', 'l', 'l'] rest with
        | some r => some (.null, r)
        | none => none
      else if numChar c then
        some (.num ⟨c :: rest.takeWhile numChar⟩, rest.dropWhile numChar)
      else none

/-- One or more `"key": value` members followed by `}`. -/
def parseMembers : Nat → List Char → Option (List (String × Json) × List Char)
  | 0, _ => none
  | fuel + 1, cs =>
    match skipWs cs with
    | [] => none
    | c :: rest =>
      if c = '"' then
        match strChars rest with
        | none => none
        | some kr =>
          match skipWs kr.2 with
          | [] => none
          | d :: r2 =>
            if d = ':' then
              match parseVal fuel r2 with
              | none => none
              | some vr =>
                match skipWs vr.2 with
                | [] => none
                | e :: r4 =>
                  if e = ',' then
                    match parseMembers fuel r4 with
                    | some mr => some ((⟨kr.1⟩, vr.1) :: mr.1, mr.2)
                    | none => none
                  else if e = '}' then some ([(⟨kr.1⟩, vr.1)], r4)
                  else none
            else none
      else none

/-- One or more array items followed by `]`. -/
def parseItems : Nat → List Char → Option (List Json × List Char)
  | 0, _ => none
  | fuel + 1, cs =>
    match parseVal fuel cs with
    | none => none
    | some vr =>
      match skipWs vr.2 with
      | [] => none
      | e :: r2 =>
        if e = ',' then
          match parseItems fuel r2 with
          | some ir => some (vr.1 :: ir.1, ir.2)
          | none => none
        else if e = ']' then some ([vr.1], r2)
        else none
end

/-- Parse a complete JSON document (model of `json.Unmarshal` succeeding). -/
def parseTop (s : String) : Option Json :=
  match parseVal (s.data.length + 1) s.data with
  | some vr => if skipWs vr.2 = [] then some vr.1 else none
  | none => none

/-- Delimiter condition used by the round-trip lemmas: the trailing input
does not begin with a number character (so a number token stops there). -/
def headNotNum : List Char → Prop
  | [] => True
  | c :: _ => numChar c = false

/-! ## Constants and small helpers from `audit.go` -/

def redacted : String := "[redacted]"

def contentTypeJSON : String := "application/json"

def levelNull : Nat := 0
def levelMetadata : Nat := 1
def levelRequest : Nat := 2
def levelRequestResponse : Nat := 3

/-- `bodyMethods` map: the PUT/POST-class methods whose bodies are captured. -/
def bodyMethods (method : String) : Bool :=
  method == "PUT" || method == "POST"

def sensitiveRequestHeader : List String := ["Cookie", "Authorization"]
def sensitiveResponseHeader : List String := ["Cookie", "Set-Cookie"]

def startsWithL : List Char → List Char → Bool
  | _, [] => true
  | [], _ :: _ => false
  | c :: cs, d :: ds => c == d && startsWithL cs ds

def containsL : List Char → List Char → Bool
  | [], sub => sub.isEmpty
  | c :: cs, sub => startsWithL (c :: cs) sub || containsL cs sub

/-- Model of `strings.Contains`. -/
def strContains (s sub : String) : Bool := containsL s.data sub.data

/-! ## Association-list operations (Go map reads/writes) -/

def lookupKV : List (String × Json) → String → Option Json
  | [], _ => none
  | kv :: fs, key => if kv.1 = key then some kv.2 else lookupKV fs key

/-- Go map assignment `m[key] = v`: replace the binding if present. -/
def setKV : List (String × Json) → String → Json → List (String × Json)
  | [], key, v => [(key, v)]
  | kv :: fs, key, v => if kv.1 = key then (key, v) :: fs else kv :: setKV fs key v

/-- Navigate nested objects along a key path. -/
def getVal : Json → List String → Option Json
  | v, [] => some v
  | .obj fs, key :: keys =>
    (match lookupKV fs key with
     | some v => getVal v keys
     | none => none)
  | _, _ :: _ => none

/-! ## Redaction engine (`concealSensitiveData`, `concealMap`) -/

/-- `for key := range data { data[key] = redacted }`. -/
def redactVals : List (String × Json) → List (String × Json)
  | [] => []
  | kv :: fs => (kv.1, Json.str redacted) :: redactVals fs

/-- The path-based Secret redaction step of `concealSensitiveData`
(audit.go lines 185–202): on a URI containing "secrets", redact every value
of the object under `data`, falling back to `stringData` when `data` is
absent or not an object; the Bool is the step's `changed` flag. -/
def secretConceal (requestURI : String) (m : List (String × Json)) :
    List (String × Json) × Bool :=
  if strContains requestURI "secrets" then
    match lookupKV m "data" with
    | some (.obj d) => (setKV m "data" (.obj (redactVals d)), true)
    | _ =>
      match lookupKV m "stringData" with
      | some (.obj d) => (setKV m "stringData" (.obj (redactVals d)), true)
      | _ => (m, false)
  else (m, false)

mutual
/-- Per-value action of `concealMap` on the value stored under `key`:
a string value is redacted when the key matches the pattern; an object value
is recursed into; any other value is untouched. -/
def concealVal (p : String → Bool) (key : String) : Json → Json × Bool
  | .str s => if p key then (.str redacted, true) else (.str s, false)
  | .obj fs =>
    let r := concealFields p fs
    (.obj r.1, r.2)
  | v => (v, false)

/-- Model of `concealMap` (audit.go lines 216–231) over an object's fields;
the Bool is the `changed` result. -/
def concealFields (p : String → Bool) : List (String × Json) → List (String × Json) × Bool
  | [] => ([], false)
  | kv :: fs =>
    let r1 := concealVal p kv.1 kv.2
    let r2 := concealFields p fs
    ((kv.1, r1.1) :: r2.1, r1.2 || r2.2)
end

/-- Model of `concealSensitiveData` (audit.go lines 179–214).  The sensitive
key regexp `keysToConcealRegex.MatchString` is modelled by the predicate `p`
(the pattern is external configuration, compiled at startup).  The
`json.Marshal` error branch is not modelled: marshalling a value produced by
`json.Unmarshal` cannot fail. -/
def concealSensitiveData (p : String → Bool) (requestURI : String) (body : String) : String :=
  match parseTop body with
  | some (.obj m) =>
    let s := secretConceal requestURI m
    let c := concealFields p s.1
    if c.2 = false ∧ s.2 = false then body
    else (Json.obj c.1).serialize
  | _ => body

/-! ## Header filtering (`filterOutHeaders`, `isExist`) -/

/-- `http.Header` / `map[string][]string`. -/
abbrev Headers := List (String × List String)

/-- Model of `isExist` (audit.go lines 170–177): linear scan with `==`. -/
def isExist : List String → String → Bool
  | [], _ => false
  | v :: rest, key => if v = key then true else isExist rest key

/-- Model of `filterOutHeaders` (audit.go lines 159–168): build a new map
from the entries whose key is not in the deny list (the input is not
mutated; the model is pure, as is the Go loop, which writes only to the
fresh `newHeader` map). -/
def filterOutHeaders (headers : Headers) (filterKeys : List String) : Headers :=
  headers.filter fun kv => !isExist filterKeys kv.1

def lookupH : Headers → String → Option (List String)
  | [], _ => none
  | kv :: h, key => if kv.1 = key then some kv.2 else lookupH h key

/-- Model of `http.Header.Get`: first value of the named header, "" when the
header is absent (Go's canonical-case key normalization is abstracted: keys
are compared as given). -/
def headerGet (h : Headers) (key : String) : String :=
  match lookupH h key with
  | some (v :: _) => v
  | _ => ""

/-! ## Request-body capture (`readBodyWithoutLosingContent`, `newAuditLog`) -/

/-- A request: its method and its body stream, which on a full read either
yields all its bytes or fails (model of `req.Body` + `ioutil.ReadAll`). -/
structure Request where
  method : String
  body : Except String String

/-- Model of `readBodyWithoutLosingContent` (audit.go lines 145–157):
returns the captured bytes (`nil`, modelled `none`, for non-PUT/POST
methods, whose streams are not read) and the request as left for the
downstream handler (Go replaces `req.Body` in place with a buffer holding
the bytes just read; the model returns the updated request). -/
def readBodyWithoutLosingContent (req : Request) :
    Except String (Option String × Request) :=
  if bodyMethods req.method = false then .ok (none, req)
  else
    match req.body with
    | .error e => .error e
    | .ok bodyBytes => .ok (some bodyBytes, { req with body := .ok bodyBytes })

/-- The request-body capture performed by `newAuditLog` (audit.go lines
99–106): the body is read (and restored) only when the level is at least
Request, the method is PUT/POST, and the Content-Type header is exactly
"application/json".  `reqCT` stands for `req.Header.Get("Content-Type")`. -/
def newAuditLogCapture (level : Nat) (req : Request) (reqCT : String) :
    Except String (Option String) :=
  if levelRequest ≤ level ∧ bodyMethods req.method = true ∧ reqCT = contentTypeJSON then
    match readBodyWithoutLosingContent req with
    | .error e => .error e
    | .ok br => .ok br.1
  else .ok none

/-! ## Record assembly (`log` struct, `write`) -/

structure User where
  name : String
  group : List String
  requestUser : String
  requestGroups : List String

/-- One field of a marshalled struct, dropped when its omitempty test says
the value is empty. -/
def optField (emit : Bool) (key : String) (v : Json) : List (String × Json) :=
  if emit then [(key, v)] else []

def strListJson (l : List String) : Json := .arr (l.map Json.str)

/-- `json.Marshal` image of the `User` struct (omitempty on every field;
empty strings and empty lists are dropped). -/
def userJson (u : User) : Json :=
  .obj (optField (u.name != "") "name" (.str u.name) ++
        optField (!u.group.isEmpty) "group" (strListJson u.group) ++
        optField (u.requestUser != "") "requestUser" (.str u.requestUser) ++
        optField (!u.requestGroups.isEmpty) "requestGroups" (strListJson u.requestGroups))

def headerJson (h : Headers) : Json :=
  .obj (h.map fun kv => (kv.1, strListJson kv.2))

/-- The `log` struct.  The Go struct also declares `RequestBody` and
`ResponseBody` `[]byte` fields (tags `requestBody`/`responseBody`,
omitempty), but no code path ever assigns them, so `json.Marshal` always
omits them and they are not part of the embedded record. -/
structure LogRec where
  auditID : String
  requestURI : String
  user : Option User
  method : String
  remoteAddr : String
  requestTimestamp : String
  responseTimestamp : String
  responseCode : Nat
  requestHeader : Headers
  responseHeader : Headers

/-- Fields emitted by `json.Marshal` for the `log` struct, in declaration
order, honouring the omitempty tags (empty string, 0, nil pointer and empty
map are dropped). -/
def logFields (r : LogRec) : List (String × Json) :=
  optField (r.auditID != "") "auditID" (.str r.auditID) ++
  optField (r.requestURI != "") "requestURI" (.str r.requestURI) ++
  (match r.user with
   | some u => [("user", userJson u)]
   | none => []) ++
  optField (r.method != "") "method" (.str r.method) ++
  optField (r.remoteAddr != "") "remoteAddr" (.str r.remoteAddr) ++
  optField (r.requestTimestamp != "") "requestTimestamp" (.str r.requestTimestamp) ++
  optField (r.responseTimestamp != "") "responseTimestamp" (.str r.responseTimestamp) ++
  optField (r.responseCode != 0) "responseCode" (.num (toString r.responseCode)) ++
  optField (!r.requestHeader.isEmpty) "requestHeader" (headerJson r.requestHeader) ++
  optField (!r.responseHeader.isEmpty) "responseHeader" (headerJson r.responseHeader)

def logToJson (r : LogRec) : Json := .obj (logFields r)

/-- Model of `bytes.TrimSuffix`. -/
def trimSuffix (s suffix : String) : String :=
  if suffix.data.isSuffixOf s.data then ⟨s.data.take (s.data.length - suffix.data.length)⟩
  else s

/-- The record buffer assembled by `write` (audit.go lines 124–133): the
marshalled `log` struct with its closing brace stripped, an optional
`requestBody` fragment (level at least Request and a nonempty captured
body), an optional `responseBody` fragment (level at least RequestResponse,
JSON response content type, nonempty response body), then the closing
brace.  `reqBody` is the captured request body `a.reqBody` ("" models Go's
nil when nothing was captured); `respCT` is
`resHeaders.Get("Content-Type")`. -/
def writeBuffer (level : Nat) (p : String → Bool) (logRec : LogRec)
    (reqBody : String) (respCT : String) (resBody : String) : String :=
  let base := (logToJson logRec).serialize
  let b1 := trimSuffix base "\x7d"
  let b2 :=
    if levelRequest ≤ level ∧ reqBody ≠ "" then
      b1 ++ ",\"requestBody\":" ++
        trimSuffix (concealSensitiveData p logRec.requestURI reqBody) "\n"
    else b1
  let b3 :=
    if levelRequestResponse ≤ level ∧ respCT = contentTypeJSON ∧ resBody ≠ "" then
      b2 ++ ",\"responseBody\":" ++
        trimSuffix (concealSensitiveData p logRec.requestURI resBody) "\n"
    else b2
  b3 ++ "\x7d"

/-- Model of `write` (audit.go lines 108–143): attach the user, response
timestamp, filtered headers and status code to the record, assemble the
buffer, then compact it — `json.Compact` is modelled as parse-and-
reserialize, failing exactly when the buffer is not valid JSON.  On success
the result is the single newline-terminated line passed to
`a.writer.Output.Write`; on error nothing reaches the sink, since the Go
code returns before the `Write` call.  `respTimestamp` stands for
`time.Now().Format(time.RFC3339)`. -/
def auditWrite (level : Nat) (p : String → Bool) (rec : LogRec) (reqBody : String)
    (userInfo : Option User) (reqHeaders resHeaders : Headers)
    (respTimestamp : String) (resCode : Nat) (resBody : String) :
    Except String String :=
  let logRec := { rec with
    user := userInfo
    responseTimestamp := respTimestamp
    requestHeader := filterOutHeaders reqHeaders sensitiveRequestHeader
    responseHeader := filterOutHeaders resHeaders sensitiveResponseHeader
    responseCode := resCode }
  let buf := writeBuffer level p logRec reqBody (headerGet resHeaders "Content-Type") resBody
  match parseTop buf with
  | none => .error "compact audit log json failed"
  | some v => .ok (v.serialize ++ "\n")

/-! ## Helper lemmas -/

theorem lookupKV_concealFields (p : String → Bool) (k : String) :
    ∀ fs, lookupKV (concealFields p fs).1 k =
      (lookupKV fs k).map fun v => (concealVal p k v).1
  | [] => rfl
  | kv :: fs => by
    by_cases h : kv.1 = k
    · simp [concealFields, lookupKV, h]
    · simp [concealFields, lookupKV, h, lookupKV_concealFields p k fs]

theorem getVal_concealFields (p : String → Bool) :
    ∀ (ks : List String) (fs : List (String × Json)) (k : String) (v : Json),
      getVal (.obj fs) (ks ++ [k]) = some v →
      getVal (.obj (concealFields p fs).1) (ks ++ [k]) = some (concealVal p k v).1 := by
  intro ks
  induction ks with
  | nil =>
    intro fs k v h
    simp only [List.nil_append, getVal] at h ⊢
    rw [lookupKV_concealFields]
    cases hl : lookupKV fs k with
    | none => rw [hl] at h; simp at h
    | some w =>
      rw [hl] at h
      simp only [getVal] at h
      cases h
      simp
  | cons k0 ks ih =>
    intro fs k v h
    obtain ⟨a, as, he⟩ : ∃ a as, ks ++ [k] = a :: as := by
      cases ks with
      | nil => exact ⟨k, [], rfl⟩
      | cons x xs => exact ⟨x, xs ++ [k], rfl⟩
    simp only [List.cons_append, getVal] at h ⊢
    rw [lookupKV_concealFields]
    cases hl : lookupKV fs k0 with
    | none => rw [hl] at h; simp at h
    | some w =>
      rw [hl] at h
      cases w with
      | obj fs' => simpa [concealVal] using ih fs' k v h
      | null => simp only [List.append_eq, he, getVal] at h; simp at h
      | bool b => simp only [List.append_eq, he, getVal] at h; simp at h
      | num t => simp only [List.append_eq, he, getVal] at h; simp at h
      | str s => simp only [List.append_eq, he, getVal] at h; simp at h
      | arr es => simp only [List.append_eq, he, getVal] at h; simp at h

theorem lookupKV_setKV_self (k : String) (v : Json) :
    ∀ m, lookupKV (setKV m k v) k = some v
  | [] => by simp [setKV, lookupKV]
  | kv :: m => by
    by_cases h : kv.1 = k
    · simp [setKV, lookupKV, h]
    · simp [setKV, lookupKV, h, lookupKV_setKV_self k v m]

theorem lookupKV_setKV_ne (k k' : String) (v : Json) (hne : k' ≠ k) :
    ∀ m, lookupKV (setKV m k v) k' = lookupKV m k'
  | [] => by simp [setKV, lookupKV, hne, Ne.symm hne]
  | kv :: m => by
    by_cases h : kv.1 = k
    · simp [setKV, lookupKV, h, hne, Ne.symm hne]
    · simp [setKV, lookupKV, h, lookupKV_setKV_ne k k' v hne m]

theorem lookupKV_redactVals (k : String) :
    ∀ d, lookupKV (redactVals d) k = (lookupKV d k).map fun _ => Json.str redacted
  | [] => rfl
  | kv :: d => by
    by_cases h : kv.1 = k
    · simp [redactVals, lookupKV, h]
    · simpa [redactVals, lookupKV, h] using lookupKV_redactVals k d

mutual
theorem concealVal_no_change (p : String → Bool) (k : String) :
    ∀ v, (concealVal p k v).2 = false → (concealVal p k v).1 = v
  | .null, _ => rfl
  | .bool _, _ => rfl
  | .num _, _ => rfl
  | .arr _, _ => rfl
  | .str s, h => by
    by_cases hp : p k
    · simp [concealVal, hp] at h
    · simp [concealVal, hp]
  | .obj fs, h => by
    simp only [concealVal] at h ⊢
    rw [concealFields_no_change p fs h]

theorem concealFields_no_change (p : String → Bool) :
    ∀ fs, (concealFields p fs).2 = false → (concealFields p fs).1 = fs
  | [], _ => rfl
  | kv :: fs, h => by
    simp only [concealFields, Bool.or_eq_false_iff] at h
    simp only [concealFields]
    rw [concealVal_no_change p kv.1 kv.2 h.1, concealFields_no_change p fs h.2]
end

theorem secretConceal_no_change (uri : String) (m : List (String × Json))
    (h : (secretConceal uri m).2 = false) : (secretConceal uri m).1 = m := by
  revert h
  unfold secretConceal
  by_cases hc : strContains uri "secrets" = true
  · rw [if_pos hc]
    split
    · intro h; simp at h
    · split
      · intro h; simp at h
      · intro _; rfl
  · rw [if_neg hc]
    intro _
    rfl

theorem isPrefixOf_self_append : ∀ (l1 l2 : List Char), l1.isPrefixOf (l1 ++ l2) = true
  | [], _ => by simp [List.isPrefixOf]
  | c :: cs, l2 => by
    simp [List.isPrefixOf, isPrefixOf_self_append cs l2]

theorem trimSuffix_append_one (l : List Char) (c : Char) :
    trimSuffix ⟨l ++ [c]⟩ ⟨[c]⟩ = ⟨l⟩ := by
  have hsuf : List.isSuffixOf [c] (l ++ [c]) = true := by
    unfold List.isSuffixOf
    rw [List.reverse_append]
    simp [List.isPrefixOf]
  show (if List.isSuffixOf ([c] : List Char) (l ++ [c]) then
          (⟨(l ++ [c]).take ((l ++ [c]).length - ([c] : List Char).length)⟩ : String)
        else ⟨l ++ [c]⟩) = ⟨l⟩
  rw [if_pos hsuf]
  have hlen : (l ++ [c]).length - ([c] : List Char).length = l.length := by simp
  rw [hlen, List.take_left]

theorem trimSuffix_serialize_obj_rbrace (fs : List (String × Json)) :
    trimSuffix ((Json.obj fs).serialize) "\x7d" ++ "\x7d" = (Json.obj fs).serialize := by
  have h1 : (Json.obj fs).serialize = ⟨('{' :: Json.serFields fs) ++ ['}']⟩ := rfl
  have h2 : ("\x7d" : String) = ⟨['}']⟩ := rfl
  rw [h1, h2, trimSuffix_append_one]
  rfl

/-- `writeBuffer` in append-of-optional-fragments normal form. -/
theorem writeBuffer_eq (level : Nat) (p : String → Bool) (rec : LogRec)
    (reqBody respCT resBody : String) :
    writeBuffer level p rec reqBody respCT resBody =
      trimSuffix ((logToJson rec).serialize) "\x7d" ++
      (if levelRequest ≤ level ∧ reqBody ≠ "" then
        ",\"requestBody\":" ++
          trimSuffix (concealSensitiveData p rec.requestURI reqBody) "\n"
      else "") ++
      (if levelRequestResponse ≤ level ∧ respCT = contentTypeJSON ∧ resBody ≠ "" then
        ",\"responseBody\":" ++
          trimSuffix (concealSensitiveData p rec.requestURI resBody) "\n"
      else "") ++ "\x7d" := by
  by_cases h1 : levelRequest ≤ level ∧ reqBody ≠ ""
  · by_cases h2 : levelRequestResponse ≤ level ∧ respCT = contentTypeJSON ∧ resBody ≠ ""
    · simp only [writeBuffer, if_pos h1, if_pos h2, String.append_assoc]
    · simp only [writeBuffer, if_pos h1, if_neg h2, String.append_empty, String.append_assoc]
  · by_cases h2 : levelRequestResponse ≤ level ∧ respCT = contentTypeJSON ∧ resBody ≠ ""
    · simp only [writeBuffer, if_neg h1, if_pos h2, String.append_empty, String.append_assoc]
    · simp only [writeBuffer, if_neg h1, if_neg h2, String.append_empty, String.append_assoc]

theorem writeBuffer_metadata (p : String → Bool) (rec : LogRec)
    (reqBody respCT resBody : String) :
    writeBuffer levelMetadata p rec reqBody respCT resBody = (logToJson rec).serialize := by
  have hn1 : ¬(levelRequest ≤ levelMetadata ∧ reqBody ≠ "") := fun h =>
    absurd h.1 (by decide)
  have hn2 : ¬(levelRequestResponse ≤ levelMetadata ∧ respCT = contentTypeJSON ∧
      resBody ≠ "") := fun h => absurd h.1 (by decide)
  rw [writeBuffer_eq, if_neg hn1, if_neg hn2, String.append_empty, String.append_empty]
  exact trimSuffix_serialize_obj_rbrace (logFields rec)

theorem lookupKV_logFields_body (r : LogRec) :
    lookupKV (logFields r) "requestBody" = none ∧
    lookupKV (logFields r) "responseBody" = none := by
  have hof : ∀ (b : Bool) (k : String) (v : Json) (rest : List (String × Json))
      (key : String), key ≠ k →
      lookupKV (optField b k v ++ rest) key = lookupKV rest key := by
    intro b k v rest key hk
    cases b <;> simp [optField, lookupKV, Ne.symm hk]
  have huser : ∀ (rest : List (String × Json)) (key : String), key ≠ "user" →
      lookupKV ((match r.user with
        | some u => [("user", userJson u)]
        | none => []) ++ rest) key = lookupKV rest key := by
    intro rest key hk
    cases r.user <;> simp [lookupKV, Ne.symm hk]
  constructor <;>
  · unfold logFields
    simp only [List.append_assoc]
    rw [hof _ _ _ _ _ (by decide), hof _ _ _ _ _ (by decide), huser _ _ (by decide),
        hof _ _ _ _ _ (by decide), hof _ _ _ _ _ (by decide), hof _ _ _ _ _ (by decide),
        hof _ _ _ _ _ (by decide), hof _ _ _ _ _ (by decide), hof _ _ _ _ _ (by decide)]
    cases (!r.responseHeader.isEmpty) <;>
      try simp only [optField, lookupKV]
    all_goals rfl

/-! ## Claim theorems -/

/-! ## Claim theorems -/

/-- C3: a request body that does not parse as JSON is returned unchanged,
byte-for-byte, by the redaction operation; `concealSensitiveData` has no
error result at all (it returns `[]byte`, never an error). -/
theorem claim3_invalid_json_passthrough (p : String → Bool) (uri body : String)
    (h : parseTop body = none) :
    concealSensitiveData p uri body = body := by
  unfold concealSensitiveData
  rw [h]

theorem claim3_witness :
    parseTop "this is not json" = none ∧
    concealSensitiveData (fun k => k == "password") "/v3/x" "this is not json" =
      "this is not json" :=
  ⟨rfl, claim3_invalid_json_passthrough _ _ _ rfl⟩

/-- C5: the header filter keeps exactly the entries whose key (compared
case-sensitively, as stored) is not in the deny list; the input map is not
mutated (the model is pure, matching the Go loop, which only writes into a
fresh map).  Concretely, `Authorization: Bearer xyz` plus `X-Trace: 1`
filtered with the request deny-list yields only `X-Trace: 1`, while a
lower-case `authorization` key is kept. -/
theorem claim5_filterOutHeaders (headers : Headers) (deny : List String) (key : String) :
    (lookupH (filterOutHeaders headers deny) key =
      if isExist deny key then none else lookupH headers key) ∧
    filterOutHeaders [("Authorization", ["Bearer xyz"]), ("X-Trace", ["1"])]
      sensitiveRequestHeader = [("X-Trace", ["1"])] ∧
    filterOutHeaders [("authorization", ["Bearer xyz"])] sensitiveRequestHeader =
      [("authorization", ["Bearer xyz"])] := by
  refine ⟨?_, rfl, rfl⟩
  induction headers with
  | nil => cases h : isExist deny key <;> simp [filterOutHeaders, lookupH]
  | cons kv t ih =>
    simp only [filterOutHeaders, List.filter_cons] at ih ⊢
    by_cases h1 : isExist deny kv.1 <;> by_cases h2 : kv.1 = key
    · subst h2
      simp [h1, lookupH, ih]
    · simp [h1, lookupH, h2, ih]
    · subst h2
      simp [h1, lookupH, ih]
    · simp [h1, lookupH, h2, ih]

/-- C6 counterexample: a GET request whose body stream reads successfully to
"abc".  Capture returns no bytes at all (the Go function returns `nil, nil`
without reading for non-PUT/POST methods), so it does not "return those same
bytes" as the claim states for every request. -/
theorem claim6_counterexample :
    readBodyWithoutLosingContent ⟨"GET", .ok "abc"⟩ = .ok (none, ⟨"GET", .ok "abc"⟩) ∧
    (none : Option String) ≠ some "abc" :=
  ⟨rfl, by decide⟩

/-- C6 (amended): for every request whose body stream reads successfully,
capture leaves the request holding a body stream that yields exactly the
bytes the original stream yielded — the downstream handler observes an
identical body.  For the PUT/POST-class methods (the only ones whose body is
read) capture returns exactly those bytes; for any other method it returns
nothing and leaves the request untouched. -/
theorem claim6_amended (req : Request) (bs : String) (h : req.body = .ok bs) :
    ∃ ret req', readBodyWithoutLosingContent req = .ok (ret, req') ∧
      req'.method = req.method ∧ req'.body = .ok bs ∧
      (bodyMethods req.method = true → ret = some bs) ∧
      (bodyMethods req.method = false → ret = none ∧ req' = req) := by
  by_cases hb : bodyMethods req.method = false
  · refine ⟨none, req, ?_, rfl, h, ?_, fun _ => ⟨rfl, rfl⟩⟩
    · simp [readBodyWithoutLosingContent, hb]
    · intro ht; rw [ht] at hb; cases hb
  · have hb' : bodyMethods req.method = true := by
      revert hb; cases bodyMethods req.method <;> simp
    refine ⟨some bs, { req with body := .ok bs }, ?_, rfl, rfl, fun _ => rfl, ?_⟩
    · simp [readBodyWithoutLosingContent, hb', h]
    · intro hf; rw [hf] at hb'; cases hb'

theorem claim6_witness :
    (Request.mk "POST" (.ok "\x7b\"a\":1\x7d")).body = .ok "\x7b\"a\":1\x7d" ∧
    ∃ ret req',
      readBodyWithoutLosingContent (Request.mk "POST" (.ok "\x7b\"a\":1\x7d")) = .ok (ret, req') ∧
      req'.method = "POST" ∧ req'.body = .ok "\x7b\"a\":1\x7d" ∧
      (bodyMethods "POST" = true → ret = some "\x7b\"a\":1\x7d") ∧
      (bodyMethods "POST" = false → ret = none ∧ req' = Request.mk "POST" (.ok "\x7b\"a\":1\x7d")) :=
  ⟨rfl, claim6_amended (Request.mk "POST" (.ok "\x7b\"a\":1\x7d")) "\x7b\"a\":1\x7d" rfl⟩

/-- C1 counterexample: the body `{"password":123}` parses as a JSON object
and contains (at top level) the key "password" matching the configured
pattern, but its value is a number, not a string, so the key-pattern pass
(`concealMap` redacts only string-valued keys) leaves it unchanged: the
redaction output does not hold the marker under that key. -/
theorem claim1_counterexample :
    (fun k => k == "password") "password" = true ∧
    parseTop "\x7b\"password\":123\x7d" = some (.obj [("password", .num "123")]) ∧
    concealSensitiveData (fun k => k == "password") "/v3/clusters"
      "\x7b\"password\":123\x7d" = "\x7b\"password\":123\x7d" ∧
    Json.num "123" ≠ Json.str redacted :=
  ⟨rfl, rfl, rfl, fun h => Json.noConfusion h⟩

/-- C1 (amended): for every object and every path of keys through nested
objects (`concealMap` recurses only into object values, not arrays), the
key-pattern pass replaces the value with the marker whenever the final key
matches the pattern **and its value is a plain string**; a string value
under a non-matching final key is unchanged, and a non-string, non-object
value is unchanged even under a matching key. -/
theorem claim1_amended (p : String → Bool) (fs : List (String × Json))
    (ks : List String) (k : String) (v : Json)
    (h : getVal (.obj fs) (ks ++ [k]) = some v) :
    (∀ s, v = .str s →
      getVal (.obj (concealFields p fs).1) (ks ++ [k]) =
        some (.str (if p k then redacted else s))) ∧
    ((∀ s, v ≠ .str s) → (∀ fs', v ≠ .obj fs') →
      getVal (.obj (concealFields p fs).1) (ks ++ [k]) = some v) := by
  have hmain := getVal_concealFields p ks fs k v h
  constructor
  · rintro s rfl
    rw [hmain]
    by_cases hp : p k <;> simp [concealVal, hp]
  · intro hs ho
    rw [hmain]
    cases v with
    | str s => exact absurd rfl (hs s)
    | obj fs' => exact absurd rfl (ho fs')
    | null => rfl
    | bool b => rfl
    | num t => rfl
    | arr es => rfl

theorem claim1_witness :
    getVal (.obj [("outer", .obj [("password", .str "x"), ("name", .str "y")])])
      (["outer"] ++ ["password"]) = some (.str "x") ∧
    getVal (.obj (concealFields (fun k => k == "password")
        [("outer", .obj [("password", .str "x"), ("name", .str "y")])]).1)
      (["outer"] ++ ["password"]) =
      some (.str (if (fun k => k == "password") "password" then redacted else "x")) :=
  ⟨rfl, (claim1_amended (fun k => k == "password")
    [("outer", .obj [("password", .str "x"), ("name", .str "y")])]
    ["outer"] "password" (.str "x") rfl).1 "x" rfl⟩

/-- C2: the path-based Secret step.  On a URI that does not indicate a
Secret resource (does not contain "secrets") the step never modifies the
body.  On a Secret URI: when `data` holds an object, every value of that
object is replaced by the marker and all other keys are untouched; when
`data` is absent or not object-typed but `stringData` holds an object, the
same happens under `stringData`; when neither holds an object the step
changes nothing. -/
theorem claim2_secret_step (uri : String) (m : List (String × Json)) :
    (strContains uri "secrets" = false → secretConceal uri m = (m, false)) ∧
    (strContains uri "secrets" = true →
      (∀ d, lookupKV m "data" = some (.obj d) →
        lookupKV (secretConceal uri m).1 "data" = some (.obj (redactVals d)) ∧
        (∀ k v, lookupKV d k = some v →
          getVal (.obj (secretConceal uri m).1) ["data", k] = some (.str redacted)) ∧
        (∀ k', k' ≠ "data" → lookupKV (secretConceal uri m).1 k' = lookupKV m k')) ∧
      ((∀ d, lookupKV m "data" ≠ some (.obj d)) →
        (∀ d, lookupKV m "stringData" = some (.obj d) →
          lookupKV (secretConceal uri m).1 "stringData" = some (.obj (redactVals d)) ∧
          (∀ k v, lookupKV d k = some v →
            getVal (.obj (secretConceal uri m).1) ["stringData", k] = some (.str redacted)) ∧
          (∀ k', k' ≠ "stringData" → lookupKV (secretConceal uri m).1 k' = lookupKV m k')) ∧
        ((∀ d, lookupKV m "stringData" ≠ some (.obj d)) → secretConceal uri m = (m, false)))) := by
  constructor
  · intro hc
    unfold secretConceal
    rw [hc]
    simp
  · intro hc
    constructor
    · intro d hd
      have hres : (secretConceal uri m).1 = setKV m "data" (.obj (redactVals d)) := by
        unfold secretConceal
        rw [hc, hd]
        simp
      rw [hres]
      refine ⟨lookupKV_setKV_self _ _ _, ?_, ?_⟩
      · intro k v hkv
        simp only [getVal, lookupKV_setKV_self]
        rw [lookupKV_redactVals, hkv]
        rfl
      · intro k' hk'
        exact lookupKV_setKV_ne _ _ _ hk' m
    · intro hnd
      have hdshape : lookupKV m "data" = none ∨
          ∃ w, lookupKV m "data" = some w ∧ ∀ d, w ≠ Json.obj d := by
        cases hd : lookupKV m "data" with
        | none => exact Or.inl rfl
        | some w =>
          refine Or.inr ⟨w, rfl, ?_⟩
          intro d hw
          exact hnd d (hw ▸ hd)
      constructor
      · intro d hd
        have hres : (secretConceal uri m).1 = setKV m "stringData" (.obj (redactVals d)) := by
          unfold secretConceal
          rw [hc]
          rcases hdshape with h0 | ⟨w, h0, hw⟩
          · rw [h0, hd]; rfl
          · rw [h0, hd]
            cases w <;> first
              | rfl
              | exact absurd rfl (hw _)
        rw [hres]
        refine ⟨lookupKV_setKV_self _ _ _, ?_, ?_⟩
        · intro k v hkv
          simp only [getVal, lookupKV_setKV_self]
          rw [lookupKV_redactVals, hkv]
          rfl
        · intro k' hk'
          exact lookupKV_setKV_ne _ _ _ hk' m
      · intro hns
        have hsshape : lookupKV m "stringData" = none ∨
            ∃ w, lookupKV m "stringData" = some w ∧ ∀ d, w ≠ Json.obj d := by
          cases hs : lookupKV m "stringData" with
          | none => exact Or.inl rfl
          | some w =>
            refine Or.inr ⟨w, rfl, ?_⟩
            intro d hw
            exact hns d (hw ▸ hs)
        unfold secretConceal
        rw [hc]
        rcases hdshape with h0 | ⟨w, h0, hw⟩ <;>
          rcases hsshape with h1 | ⟨w1, h1, hw1⟩
        · rw [h0, h1]; rfl
        · rw [h0, h1]
          cases w1 <;> first
            | rfl
            | exact absurd rfl (hw1 _)
        · rw [h0, h1]
          cases w <;> first
            | rfl
            | exact absurd rfl (hw _)
        · rw [h0, h1]
          cases w <;> first
            | (cases w1 <;> first
                | rfl
                | exact absurd rfl (hw1 _))
            | exact absurd rfl (hw _)

theorem claim2_witness :
    strContains "/api/v1/namespaces/ns/secrets/s" "secrets" = true ∧
    lookupKV [("kind", Json.str "Secret"),
      ("data", Json.obj [("pw", Json.str "hunter2")])] "data" =
      some (.obj [("pw", Json.str "hunter2")]) ∧
    getVal (.obj (secretConceal "/api/v1/namespaces/ns/secrets/s"
        [("kind", Json.str "Secret"),
         ("data", Json.obj [("pw", Json.str "hunter2")])]).1) ["data", "pw"] =
      some (.str redacted) :=
  ⟨rfl, rfl,
    (((claim2_secret_step "/api/v1/namespaces/ns/secrets/s"
      [("kind", Json.str "Secret"),
       ("data", Json.obj [("pw", Json.str "hunter2")])]).2 rfl).1
      [("pw", Json.str "hunter2")] rfl).2.1 "pw" (Json.str "hunter2") rfl⟩

/-- C8 counterexample: the body `{"password": "[redacted]"}` (note the
space).  Neither step changes anything: the URI is not a Secret path and the
only matching key already holds the marker, so the parsed structure is
untouched by both passes — yet the code's `changed` flag is set (it is set
whenever a matching string key is *assigned*, equal value or not), so the
structure is re-serialized and the output differs byte-wise from the
input. -/
theorem claim8_counterexample :
    parseTop "\x7b\"password\": \"[redacted]\"\x7d" =
      some (.obj [("password", Json.str "[redacted]")]) ∧
    secretConceal "/v3/clusters" [("password", Json.str "[redacted]")] =
      ([("password", Json.str "[redacted]")], false) ∧
    (concealFields (fun k => k == "password") [("password", Json.str "[redacted]")]).1 =
      [("password", Json.str "[redacted]")] ∧
    concealSensitiveData (fun k => k == "password") "/v3/clusters"
      "\x7b\"password\": \"[redacted]\"\x7d" ≠ "\x7b\"password\": \"[redacted]\"\x7d" := by
  refine ⟨rfl, rfl, rfl, ?_⟩
  intro h
  have : ("\x7b\"password\":\"[redacted]\"\x7d" : String) = "\x7b\"password\": \"[redacted]\"\x7d" := h
  simp at this

/-- C8 (amended): when neither step *reports* a change — the Secret step
reports one whenever a `data`/`stringData` object is found on a Secret path
(even an empty or already-redacted one), and the key-pattern step whenever a
matching string-valued key exists (even one already holding the marker) —
the redaction returns the original bytes verbatim, and indeed the parsed
structure really is unchanged; when either step reports a change, the result
is the re-serialization of the whole modified structure. -/
theorem claim8_amended (p : String → Bool) (uri body : String)
    (m : List (String × Json)) (h : parseTop body = some (.obj m)) :
    (((secretConceal uri m).2 = false ∧
        (concealFields p (secretConceal uri m).1).2 = false) →
      concealSensitiveData p uri body = body ∧
        (concealFields p (secretConceal uri m).1).1 = m) ∧
    (((secretConceal uri m).2 = true ∨
        (concealFields p (secretConceal uri m).1).2 = true) →
      concealSensitiveData p uri body =
        (Json.obj (concealFields p (secretConceal uri m).1).1).serialize) := by
  constructor
  · rintro ⟨h1, h2⟩
    have hm1 : (secretConceal uri m).1 = m := secretConceal_no_change uri m h1
    have hm2 : (concealFields p (secretConceal uri m).1).1 = (secretConceal uri m).1 :=
      concealFields_no_change p _ h2
    refine ⟨?_, hm2.trans hm1⟩
    unfold concealSensitiveData
    rw [h]
    simp [h1, h2]
  · intro h12
    unfold concealSensitiveData
    rw [h]
    rcases h12 with h1 | h2
    · simp [h1]
    · simp [h2]

theorem claim8_witness :
    parseTop "\x7b\"name\":\"alice\",\"password\":\"pw\"\x7d" =
      some (.obj [("name", Json.str "alice"), ("password", Json.str "pw")]) ∧
    concealSensitiveData (fun k => k == "password") "/v3/clusters"
      "\x7b\"name\":\"alice\",\"password\":\"pw\"\x7d" =
      (Json.obj (concealFields (fun k => k == "password")
        (secretConceal "/v3/clusters"
          [("name", Json.str "alice"), ("password", Json.str "pw")]).1).1).serialize :=
  ⟨rfl,
    (claim8_amended (fun k => k == "password") "/v3/clusters"
      "\x7b\"name\":\"alice\",\"password\":\"pw\"\x7d"
      [("name", Json.str "alice"), ("password", Json.str "pw")] rfl).2
      (Or.inr rfl)⟩

/-- C4: combining the capture condition of `newAuditLog` with the fragment
conditions of `write`: for a request whose stream reads successfully, the
assembled record buffer carries a `requestBody` fragment exactly when the
level is at least Request, the method is PUT/POST, the request Content-Type
is exactly JSON and the body is nonempty, and a `responseBody` fragment
exactly when the level is at least RequestResponse, the response
Content-Type is JSON and the response body is nonempty.  At level Metadata
the buffer is exactly the marshalled `log` struct, which contains no
`requestBody` or `responseBody` field, for any method and content type. -/
theorem claim4_level_gated_bodies (level : Nat) (p : String → Bool) (req : Request)
    (reqCT : String) (rec : LogRec) (respCT resBody bodyBytes : String)
    (hbody : req.body = .ok bodyBytes) :
    ∃ bOpt, newAuditLogCapture level req reqCT = .ok bOpt ∧
      writeBuffer level p rec (bOpt.getD "") respCT resBody =
        trimSuffix ((logToJson rec).serialize) "\x7d" ++
        (if levelRequest ≤ level ∧ bodyMethods req.method = true ∧
            reqCT = contentTypeJSON ∧ bodyBytes ≠ "" then
          ",\"requestBody\":" ++
            trimSuffix (concealSensitiveData p rec.requestURI bodyBytes) "\n"
        else "") ++
        (if levelRequestResponse ≤ level ∧ respCT = contentTypeJSON ∧ resBody ≠ "" then
          ",\"responseBody\":" ++
            trimSuffix (concealSensitiveData p rec.requestURI resBody) "\n"
        else "") ++ "\x7d" ∧
      (level = levelMetadata →
        writeBuffer level p rec (bOpt.getD "") respCT resBody = (logToJson rec).serialize ∧
        lookupKV (logFields rec) "requestBody" = none ∧
        lookupKV (logFields rec) "responseBody" = none) := by
  by_cases hcap : levelRequest ≤ level ∧ bodyMethods req.method = true ∧ reqCT = contentTypeJSON
  · refine ⟨some bodyBytes, ?_, ?_, ?_⟩
    · unfold newAuditLogCapture readBodyWithoutLosingContent
      rw [if_pos hcap, hcap.2.1, hbody]
      rfl
    · rw [writeBuffer_eq]
      have hiff : (levelRequest ≤ level ∧ (some bodyBytes).getD "" ≠ "") ↔
          (levelRequest ≤ level ∧ bodyMethods req.method = true ∧
            reqCT = contentTypeJSON ∧ bodyBytes ≠ "") := by
        constructor
        · intro h; exact ⟨h.1, hcap.2.1, hcap.2.2, h.2⟩
        · intro h; exact ⟨h.1, h.2.2.2⟩
      rw [if_congr hiff rfl rfl]
      rfl
    · intro hlv
      subst hlv
      exact ⟨writeBuffer_metadata p rec _ respCT resBody, lookupKV_logFields_body rec⟩
  · refine ⟨none, ?_, ?_, ?_⟩
    · unfold newAuditLogCapture
      rw [if_neg hcap]
    · rw [writeBuffer_eq]
      have h1 : ¬(levelRequest ≤ level ∧ (none : Option String).getD "" ≠ "") :=
        fun h => h.2 rfl
      have h2 : ¬(levelRequest ≤ level ∧ bodyMethods req.method = true ∧
          reqCT = contentTypeJSON ∧ bodyBytes ≠ "") :=
        fun h => hcap ⟨h.1, h.2.1, h.2.2.1⟩
      rw [if_neg h1, if_neg h2]
    · intro hlv
      subst hlv
      exact ⟨writeBuffer_metadata p rec _ respCT resBody, lookupKV_logFields_body rec⟩

theorem claim4_witness :
    (Request.mk "POST" (.ok "\x7b\"a\":1\x7d")).body = .ok "\x7b\"a\":1\x7d" ∧
    ∃ bOpt, newAuditLogCapture levelMetadata (Request.mk "POST" (.ok "\x7b\"a\":1\x7d"))
        contentTypeJSON = .ok bOpt ∧
      writeBuffer levelMetadata (fun k => k == "password")
          (LogRec.mk "id1" "/v3/x" none "POST" "" "t0" "" 0 [] [])
          (bOpt.getD "") contentTypeJSON "\x7b\"ok\":true\x7d" =
        trimSuffix ((logToJson
            (LogRec.mk "id1" "/v3/x" none "POST" "" "t0" "" 0 [] [])).serialize) "\x7d" ++
        (if levelRequest ≤ levelMetadata ∧ bodyMethods "POST" = true ∧
            contentTypeJSON = contentTypeJSON ∧ "\x7b\"a\":1\x7d" ≠ "" then
          ",\"requestBody\":" ++
            trimSuffix (concealSensitiveData (fun k => k == "password") "/v3/x"
              "\x7b\"a\":1\x7d") "\n"
        else "") ++
        (if levelRequestResponse ≤ levelMetadata ∧ contentTypeJSON = contentTypeJSON ∧
            ("\x7b\"ok\":true\x7d" : String) ≠ "" then
          ",\"responseBody\":" ++
            trimSuffix (concealSensitiveData (fun k => k == "password") "/v3/x"
              "\x7b\"ok\":true\x7d") "\n"
        else "") ++ "\x7d" ∧
      (levelMetadata = levelMetadata →
        writeBuffer levelMetadata (fun k => k == "password")
            (LogRec.mk "id1" "/v3/x" none "POST" "" "t0" "" 0 [] [])
            (bOpt.getD "") contentTypeJSON "\x7b\"ok\":true\x7d" =
          (logToJson (LogRec.mk "id1" "/v3/x" none "POST" "" "t0" "" 0 [] [])).serialize ∧
        lookupKV (logFields (LogRec.mk "id1" "/v3/x" none "POST" "" "t0" "" 0 [] []))
          "requestBody" = none ∧
        lookupKV (logFields (LogRec.mk "id1" "/v3/x" none "POST" "" "t0" "" 0 [] []))
          "responseBody" = none) :=
  ⟨rfl, claim4_level_gated_bodies levelMetadata (fun k => k == "password")
    (Request.mk "POST" (.ok "\x7b\"a\":1\x7d")) contentTypeJSON
    (LogRec.mk "id1" "/v3/x" none "POST" "" "t0" "" 0 [] [])
    contentTypeJSON "\x7b\"ok\":true\x7d" "\x7b\"a\":1\x7d" rfl⟩

/-- C10: a request body is captured at session creation only when the
Content-Type header equals the exact string "application/json": whenever the
declared content type differs from that exact string — in particular
"application/json; charset=utf-8" — nothing is captured (for any level and
method, PUT/POST included), the assembled buffer carries no `requestBody`
fragment, and the marshalled record has no `requestBody` field. -/
theorem claim10_exact_content_type (level : Nat) (p : String → Bool) (req : Request)
    (reqCT : String) (rec : LogRec) (respCT resBody : String)
    (hct : reqCT ≠ contentTypeJSON) :
    newAuditLogCapture level req reqCT = .ok none ∧
    writeBuffer level p rec ((none : Option String).getD "") respCT resBody =
      trimSuffix ((logToJson rec).serialize) "\x7d" ++
      (if levelRequestResponse ≤ level ∧ respCT = contentTypeJSON ∧ resBody ≠ "" then
        ",\"responseBody\":" ++
          trimSuffix (concealSensitiveData p rec.requestURI resBody) "\n"
      else "") ++ "\x7d" ∧
    lookupKV (logFields rec) "requestBody" = none := by
  refine ⟨?_, ?_, (lookupKV_logFields_body rec).1⟩
  · unfold newAuditLogCapture
    rw [if_neg (fun h => hct h.2.2)]
  · have h1 : ¬(levelRequest ≤ level ∧ ((none : Option String).getD "") ≠ "") :=
      fun h => h.2 rfl
    rw [writeBuffer_eq, if_neg h1, String.append_empty]

theorem claim10_witness :
    ("application/json; charset=utf-8" : String) ≠ contentTypeJSON ∧
    newAuditLogCapture levelRequestResponse
      (Request.mk "POST" (.ok "\x7b\"a\":1\x7d")) "application/json; charset=utf-8" = .ok none ∧
    writeBuffer levelRequestResponse (fun k => k == "password")
        (LogRec.mk "id1" "/v3/x" none "POST" "" "t0" "" 0 [] [])
        ((none : Option String).getD "") "text/plain" "" =
      trimSuffix ((logToJson
          (LogRec.mk "id1" "/v3/x" none "POST" "" "t0" "" 0 [] [])).serialize) "\x7d" ++
      (if levelRequestResponse ≤ levelRequestResponse ∧
          ("text/plain" : String) = contentTypeJSON ∧ ("" : String) ≠ "" then
        ",\"responseBody\":" ++
          trimSuffix (concealSensitiveData (fun k => k == "password") "/v3/x" "") "\n"
      else "") ++ "\x7d" ∧
    lookupKV (logFields (LogRec.mk "id1" "/v3/x" none "POST" "" "t0" "" 0 [] []))
      "requestBody" = none :=
  ⟨by decide,
    claim10_exact_content_type levelRequestResponse (fun k => k == "password")
      (Request.mk "POST" (.ok "\x7b\"a\":1\x7d")) "application/json; charset=utf-8"
      (LogRec.mk "id1" "/v3/x" none "POST" "" "t0" "" 0 [] [])
      "text/plain" "" (by decide)⟩

/-! ## Parser metatheory: output well-formedness and round-trip -/

theorem takeWhile_all_self (p : Char → Bool) :
    ∀ l : List Char, (l.takeWhile p).all p = true
  | [] => rfl
  | c :: cs => by
    by_cases h : p c
    · simp [List.takeWhile_cons, h, takeWhile_all_self p cs]
    · simp [List.takeWhile_cons, h]

theorem takeWhile_append_stop (p : Char → Bool) :
    ∀ (l r : List Char), l.all p = true →
      (r = [] ∨ ∃ c cs, r = c :: cs ∧ p c = false) →
      (l ++ r).takeWhile p = l ∧ (l ++ r).dropWhile p = r
  | [], r, _, hr => by
    rcases hr with rfl | ⟨c, cs, rfl, hc⟩
    · exact ⟨rfl, rfl⟩
    · simp [List.takeWhile_cons, List.dropWhile_cons, hc]
  | a :: l, r, hl, hr => by
    simp only [List.all_cons, Bool.and_eq_true] at hl
    have ih := takeWhile_append_stop p l r hl.2 hr
    simp [List.takeWhile_cons, List.dropWhile_cons, hl.1, ih.1, ih.2]

theorem headNotNum_cases : ∀ r : List Char, headNotNum r →
    r = [] ∨ ∃ c cs, r = c :: cs ∧ numChar c = false
  | [], _ => Or.inl rfl
  | c :: cs, h => Or.inr ⟨c, cs, rfl, h⟩

theorem skipWs_not (c : Char) (cs : List Char) (h : isWs c = false) :
    skipWs (c :: cs) = c :: cs := by
  simp [skipWs, h]

theorem numChar_not_ws (c : Char) (h : numChar c = true) : isWs c = false := by
  cases hw : isWs c
  · rfl
  · exfalso
    simp only [isWs, Bool.or_eq_true, beq_iff_eq] at hw
    rcases hw with ((rfl | rfl) | rfl) | rfl <;> exact absurd h (by decide)

theorem numChar_ne (c d : Char) (h : numChar c = true) (hd : numChar d = false) :
    c ≠ d := by
  intro he
  subst he
  rw [h] at hd
  cases hd

theorem dropLit_append : ∀ (ls rest : List Char), dropLit ls (ls ++ rest) = some rest
  | [], _ => rfl
  | l :: ls, rest => by simp [dropLit, dropLit_append ls rest]

theorem strChars_escList : ∀ (l rest : List Char),
    strChars (escList l ++ '"' :: rest) = some (l, rest)
  | [], rest => by
    show strChars ('"' :: rest) = some ([], rest)
    unfold strChars
    rw [if_pos rfl]
  | c :: l, rest => by
    by_cases h : c = '"' ∨ c = '\\'
    · have hesc : escChar c = ['\\', c] := by rw [escChar, if_pos h]
      have hun : unescChar c = some c := by
        rw [unescChar, if_pos]
        rcases h with h | h
        · exact Or.inl h
        · exact Or.inr (Or.inl h)
      show strChars (escChar c ++ escList l ++ '"' :: rest) = some (c :: l, rest)
      rw [hesc]
      show strChars ('\\' :: (c :: (escList l ++ '"' :: rest))) = some (c :: l, rest)
      unfold strChars
      rw [if_neg (by decide : ¬(('\\' : Char) = '"')), if_pos rfl]
      show (match unescChar c, strChars (escList l ++ '"' :: rest) with
            | some d, some r => some (d :: r.1, r.2)
            | _, _ => none) = some (c :: l, rest)
      rw [hun, strChars_escList l rest]
    · push_neg at h
      have hesc : escChar c = [c] := by rw [escChar, if_neg (by tauto)]
      show strChars (escChar c ++ escList l ++ '"' :: rest) = some (c :: l, rest)
      rw [hesc]
      show strChars (c :: (escList l ++ '"' :: rest)) = some (c :: l, rest)
      unfold strChars
      rw [if_neg h.1, if_neg h.2]
      show (match strChars (escList l ++ '"' :: rest) with
            | some r => some (c :: r.1, r.2)
            | none => none) = some (c :: l, rest)
      rw [strChars_escList l rest]

theorem parser_wf : ∀ fuel : Nat,
    (∀ cs v r, parseVal fuel cs = some (v, r) → wfJson v = true) ∧
    (∀ cs fs r, parseMembers fuel cs = some (fs, r) → wfFields fs = true) ∧
    (∀ cs es r, parseItems fuel cs = some (es, r) → wfElems es = true) := by
  intro fuel
  induction fuel with
  | zero =>
    refine ⟨?_, ?_, ?_⟩ <;> intro cs x r h <;> exact Option.noConfusion h
  | succ n ih =>
    obtain ⟨ihv, ihm, ihi⟩ := ih
    refine ⟨?_, ?_, ?_⟩
    · intro cs v r h
      unfold parseVal at h
      repeat' split at h
      all_goals
        first
        | exact Option.noConfusion h
        | (injection h with h1
           injection h1 with hv hr
           subst hv
           first
           | rfl
           | exact ihm _ _ _ (by assumption)
           | exact ihi _ _ _ (by assumption)
           | (simp only [wfJson]
              rw [Bool.and_eq_true]
              refine ⟨rfl, ?_⟩
              rw [List.all_cons, Bool.and_eq_true]
              exact ⟨by assumption, takeWhile_all_self numChar _⟩))
    · intro cs fs r h
      unfold parseMembers at h
      repeat' split at h
      all_goals
        first
        | exact Option.noConfusion h
        | (injection h with h1
           injection h1 with hv hr
           subst hv
           simp only [wfFields, Bool.and_eq_true, Bool.and_true]
           first
           | exact ihv _ _ _ (by assumption)
           | exact ⟨ihv _ _ _ (by assumption), ihm _ _ _ (by assumption)⟩)
    · intro cs es r h
      unfold parseItems at h
      repeat' split at h
      all_goals
        first
        | exact Option.noConfusion h
        | (injection h with h1
           injection h1 with hv hr
           subst hv
           simp only [wfElems, Bool.and_eq_true, Bool.and_true]
           first
           | exact ihv _ _ _ (by assumption)
           | exact ⟨ihv _ _ _ (by assumption), ihi _ _ _ (by assumption)⟩)

theorem parseTop_wf (s : String) (v : Json) (h : parseTop s = some v) :
    wfJson v = true := by
  unfold parseTop at h
  split at h
  · split at h
    · cases h
      exact (parser_wf _).1 _ _ _ (by assumption)
    · exact Option.noConfusion h
  · exact Option.noConfusion h

theorem ser_length_pos : ∀ v : Json, wfJson v = true → 1 ≤ (Json.ser v).length
  | .null, _ => by decide
  | .bool true, _ => by decide
  | .bool false, _ => by decide
  | .str s, _ => by simp [Json.ser, serStr]
  | .arr es, _ => by simp [Json.ser]
  | .obj fs, _ => by simp [Json.ser]
  | .num tok, h => by
    simp only [wfJson, Bool.and_eq_true] at h
    cases hd : tok.data with
    | nil => rw [hd] at h; simp at h
    | cons c cs => simp [Json.ser, hd]

theorem ser_head : ∀ v : Json, wfJson v = true →
    ∃ c cs, Json.ser v = c :: cs ∧ isWs c = false ∧ c ≠ ']'
  | .null, _ => ⟨'n', _, rfl, by decide, by decide⟩
  | .bool true, _ => ⟨'t', _, rfl, by decide, by decide⟩
  | .bool false, _ => ⟨'f', _, rfl, by decide, by decide⟩
  | .str s, _ => ⟨'"', _, rfl, by decide, by decide⟩
  | .arr es, _ => ⟨'[', _, rfl, by decide, by decide⟩
  | .obj fs, _ => ⟨'{', _, rfl, by decide, by decide⟩
  | .num tok, h => by
    simp only [wfJson, Bool.and_eq_true] at h
    cases hd : tok.data with
    | nil => rw [hd] at h; simp at h
    | cons c cs =>
      have hall : (c :: cs).all numChar = true := by rw [← hd]; exact h.2
      simp only [List.all_cons, Bool.and_eq_true] at hall
      exact ⟨c, cs, by simp [Json.ser, hd], numChar_not_ws c hall.1,
        numChar_ne c ']' hall.1 (by decide)⟩

theorem parser_roundtrip : ∀ n : Nat,
    (∀ v rest, wfJson v = true → (Json.ser v).length ≤ n → headNotNum rest →
      parseVal (n + 1) (Json.ser v ++ rest) = some (v, rest)) ∧
    (∀ fs rest, fs ≠ [] → wfFields fs = true → (Json.serFields fs).length + 1 ≤ n →
      parseMembers (n + 1) (Json.serFields fs ++ '}' :: rest) = some (fs, rest)) ∧
    (∀ es rest, es ≠ [] → wfElems es = true → (Json.serElems es).length + 1 ≤ n →
      parseItems (n + 1) (Json.serElems es ++ ']' :: rest) = some (es, rest)) := by
  intro n
  induction n with
  | zero =>
    refine ⟨?_, ?_, ?_⟩
    · intro v rest hwf hlen _
      exact absurd (Nat.le_trans (ser_length_pos v hwf) hlen) (by decide)
    · intro fs rest hne hwf hlen
      exact absurd hlen (by omega)
    · intro es rest hne hwf hlen
      exact absurd hlen (by omega)
  | succ n ih =>
    obtain ⟨ihv, ihm, ihi⟩ := ih
    refine ⟨?_, ?_, ?_⟩
    · intro v rest hwf hlen hrest
      cases v with
      | null =>
        show parseVal (n + 1 + 1) ('n' :: 'u' :: 'l' :: 'l' :: rest) = some (.null, rest)
        simp [parseVal, skipWs, isWs, dropLit]
      | bool b =>
        cases b
        · show parseVal (n + 1 + 1) ('f' :: 'a' :: 'l' :: 's' :: 'e' :: rest) =
            some (.bool false, rest)
          simp [parseVal, skipWs, isWs, dropLit]
        · show parseVal (n + 1 + 1) ('t' :: 'r' :: 'u' :: 'e' :: rest) =
            some (.bool true, rest)
          simp [parseVal, skipWs, isWs, dropLit]
      | num tok =>
        simp only [wfJson, Bool.and_eq_true] at hwf
        cases hd : tok.data with
        | nil => rw [hd] at hwf; simp at hwf
        | cons c cs =>
          have hall : (c :: cs).all numChar = true := by rw [← hd]; exact hwf.2
          simp only [List.all_cons, Bool.and_eq_true] at hall
          have hn : numChar c = true := hall.1
          have hgoal : Json.ser (.num tok) ++ rest = c :: (cs ++ rest) := by
            simp [Json.ser, hd]
          rw [hgoal]
          unfold parseVal
          rw [skipWs_not _ _ (numChar_not_ws c hn)]
          dsimp only
          rw [if_neg (numChar_ne c '{' hn (by decide)),
              if_neg (numChar_ne c '[' hn (by decide)),
              if_neg (numChar_ne c '"' hn (by decide)),
              if_neg (numChar_ne c 't' hn (by decide)),
              if_neg (numChar_ne c 'f' hn (by decide)),
              if_neg (numChar_ne c 'n' hn (by decide)),
              if_pos hn]
          have htw := takeWhile_append_stop numChar cs rest hall.2
            (headNotNum_cases rest hrest)
          rw [htw.1, htw.2, ← hd]
      | str s =>
        have hs : (escList s.data ++ ['"']) ++ rest = escList s.data ++ '"' :: rest := by
          simp
        show parseVal (n + 1 + 1) ('"' :: ((escList s.data ++ ['"']) ++ rest)) =
          some (.str s, rest)
        rw [hs]
        unfold parseVal
        rw [skipWs_not _ _ (by decide)]
        dsimp only
        rw [if_neg (by decide), if_neg (by decide), if_pos rfl, strChars_escList]
      | arr es =>
        cases es with
        | nil =>
          show parseVal (n + 1 + 1) ('[' :: ']' :: rest) = some (.arr [], rest)
          simp [parseVal, skipWs, isWs]
        | cons e t =>
          have hwfe : wfElems (e :: t) = true := hwf
          have hwfe2 : wfJson e = true ∧ wfElems t = true := by
            simpa [wfElems, Bool.and_eq_true] using hwfe
          have hlenE : (Json.serElems (e :: t)).length + 1 ≤ n := by
            have hser : (Json.ser (.arr (e :: t))).length =
                (Json.serElems (e :: t)).length + 2 := by
              simp only [Json.ser, List.length_cons, List.length_append, List.length_nil]
            omega
          have hM := ihi (e :: t) rest (by simp) hwfe hlenE
          obtain ⟨c, cs, hE, hws, hrb⟩ := ser_head e hwfe2.1
          have hshape : ∃ z, Json.serElems (e :: t) = c :: z := by
            cases t with
            | nil => exact ⟨cs, by simp [Json.serElems, hE]⟩
            | cons e2 t2 =>
              exact ⟨cs ++ ',' :: Json.serElems (e2 :: t2), by simp [Json.serElems, hE]⟩
          obtain ⟨z, hz⟩ := hshape
          have ha : (Json.serElems (e :: t) ++ [']']) ++ rest =
              Json.serElems (e :: t) ++ ']' :: rest := by simp
          show parseVal (n + 1 + 1) ('[' :: ((Json.serElems (e :: t) ++ [']']) ++ rest)) =
            some (.arr (e :: t), rest)
          rw [ha]
          rw [hz] at hM ⊢
          rw [List.cons_append] at hM ⊢
          unfold parseVal
          rw [skipWs_not _ _ (by decide)]
          dsimp only
          rw [if_neg (by decide), if_pos rfl]
          rw [skipWs_not _ _ hws]
          dsimp only
          rw [if_neg hrb, hM]
      | obj fs =>
        cases fs with
        | nil =>
          show parseVal (n + 1 + 1) ('{' :: '}' :: rest) = some (.obj [], rest)
          simp [parseVal, skipWs, isWs]
        | cons kv t =>
          have hwff : wfFields (kv :: t) = true := hwf
          have hlenF : (Json.serFields (kv :: t)).length + 1 ≤ n := by
            have hser : (Json.ser (.obj (kv :: t))).length =
                (Json.serFields (kv :: t)).length + 2 := by
              simp only [Json.ser, List.length_cons, List.length_append, List.length_nil]
            omega
          have hM := ihm (kv :: t) rest (by simp) hwff hlenF
          obtain ⟨k, v⟩ := kv
          have hshape : ∃ z, Json.serFields ((k, v) :: t) = '"' :: z := by
            cases t with
            | nil => exact ⟨(escList k.data ++ ['"']) ++ ':' :: Json.ser v,
                by simp [Json.serFields, serStr]⟩
            | cons kv2 t2 => exact ⟨(escList k.data ++ ['"']) ++
                ':' :: Json.ser v ++ ',' :: Json.serFields (kv2 :: t2),
                by simp [Json.serFields, serStr]⟩
          obtain ⟨z, hz⟩ := hshape
          have ha : (Json.serFields ((k, v) :: t) ++ ['}']) ++ rest =
              Json.serFields ((k, v) :: t) ++ '}' :: rest := by simp
          show parseVal (n + 1 + 1)
              ('{' :: ((Json.serFields ((k, v) :: t) ++ ['}']) ++ rest)) =
            some (.obj ((k, v) :: t), rest)
          rw [ha]
          rw [hz] at hM ⊢
          rw [List.cons_append] at hM ⊢
          unfold parseVal
          rw [skipWs_not _ _ (by decide)]
          dsimp only
          rw [if_pos rfl]
          rw [skipWs_not _ _ (by decide)]
          dsimp only
          rw [if_neg (by decide), hM]
    · intro fs rest hne hwf hlen
      cases fs with
      | nil => exact absurd rfl hne
      | cons kv t =>
        obtain ⟨k, v⟩ := kv
        have hwfv : wfJson v = true ∧ wfFields t = true := by
          simpa [wfFields, Bool.and_eq_true] using hwf
        cases t with
        | nil =>
          have hs : ((escList k.data ++ ['"']) ++ ':' :: Json.ser v) ++ '}' :: rest =
              escList k.data ++ '"' :: ':' :: (Json.ser v ++ '}' :: rest) := by simp
          have hlv : (Json.ser v).length ≤ n := by
            have h1 : (Json.serFields [(k, v)]).length =
                (escList k.data).length + 3 + (Json.ser v).length := by
              simp only [Json.serFields, serStr, List.length_append, List.length_cons, List.length_nil]
              omega
            omega
          have hV := ihv v ('}' :: rest) hwfv.1 hlv (by show numChar '}' = false; decide)
          show parseMembers (n + 1 + 1)
              ('"' :: (((escList k.data ++ ['"']) ++ ':' :: Json.ser v) ++ '}' :: rest)) =
            some ([(k, v)], rest)
          rw [hs]
          unfold parseMembers
          rw [skipWs_not _ _ (by decide)]
          dsimp only
          rw [if_pos rfl, strChars_escList]
          dsimp only
          rw [skipWs_not _ _ (by decide)]
          dsimp only
          rw [if_pos rfl, hV]
          dsimp only
          rw [skipWs_not _ _ (by decide)]
          dsimp only
          rw [if_neg (by decide), if_pos rfl]
        | cons kv2 t2 =>
          have hs : Json.serFields ((k, v) :: kv2 :: t2) ++ '}' :: rest =
              '"' :: (escList k.data ++ '"' :: ':' ::
                (Json.ser v ++ ',' :: (Json.serFields (kv2 :: t2) ++ '}' :: rest))) := by
            simp [Json.serFields, serStr]
          have hlv : (Json.ser v).length ≤ n ∧
              (Json.serFields (kv2 :: t2)).length + 1 ≤ n := by
            have h1 : (Json.serFields ((k, v) :: kv2 :: t2)).length =
                (escList k.data).length + 4 + (Json.ser v).length +
                  (Json.serFields (kv2 :: t2)).length := by
              simp only [Json.serFields, serStr, List.length_append, List.length_cons, List.length_nil]
              omega
            omega
          have hV := ihv v (',' :: (Json.serFields (kv2 :: t2) ++ '}' :: rest)) hwfv.1
            hlv.1 (by show numChar ',' = false; decide)
          have hM := ihm (kv2 :: t2) rest (by simp) hwfv.2 hlv.2
          rw [hs]
          unfold parseMembers
          rw [skipWs_not _ _ (by decide)]
          dsimp only
          rw [if_pos rfl, strChars_escList]
          dsimp only
          rw [skipWs_not _ _ (by decide)]
          dsimp only
          rw [if_pos rfl, hV]
          dsimp only
          rw [skipWs_not _ _ (by decide)]
          dsimp only
          rw [if_pos rfl, hM]
    · intro es rest hne hwf hlen
      cases es with
      | nil => exact absurd rfl hne
      | cons e t =>
        have hwfe : wfJson e = true ∧ wfElems t = true := by
          simpa [wfElems, Bool.and_eq_true] using hwf
        cases t with
        | nil =>
          have hlv : (Json.ser e).length ≤ n := by
            have h1 : (Json.serElems [e]).length = (Json.ser e).length := by
              simp [Json.serElems]
            omega
          have hV := ihv e (']' :: rest) hwfe.1 hlv (by show numChar ']' = false; decide)
          show parseItems (n + 1 + 1) (Json.ser e ++ ']' :: rest) = some ([e], rest)
          unfold parseItems
          rw [hV]
          dsimp only
          rw [skipWs_not _ _ (by decide)]
          dsimp only
          rw [if_neg (by decide), if_pos rfl]
        | cons e2 t2 =>
          have hs : Json.serElems (e :: e2 :: t2) ++ ']' :: rest =
              Json.ser e ++ ',' :: (Json.serElems (e2 :: t2) ++ ']' :: rest) := by
            simp [Json.serElems]
          have hlv : (Json.ser e).length ≤ n ∧
              (Json.serElems (e2 :: t2)).length + 1 ≤ n := by
            have h1 : (Json.serElems (e :: e2 :: t2)).length =
                (Json.ser e).length + 1 + (Json.serElems (e2 :: t2)).length := by
              simp only [Json.serElems, List.length_append, List.length_cons, List.length_nil]
              omega
            omega
          have hV := ihv e (',' :: (Json.serElems (e2 :: t2) ++ ']' :: rest)) hwfe.1
            hlv.1 (by show numChar ',' = false; decide)
          have hM := ihi (e2 :: t2) rest (by simp) hwfe.2 hlv.2
          rw [hs]
          unfold parseItems
          rw [hV]
          dsimp only
          rw [skipWs_not _ _ (by decide)]
          dsimp only
          rw [if_pos rfl, hM]

/-- A well-formed value serializes to text that parses back to itself. -/
theorem parseTop_serialize (v : Json) (h : wfJson v = true) :
    parseTop (Json.serialize v) = some v := by
  have hP := (parser_roundtrip (Json.ser v).length).1 v [] h (Nat.le_refl _) trivial
  rw [List.append_nil] at hP
  show (match parseVal ((Json.ser v).length + 1) (Json.ser v) with
        | some vr => if skipWs vr.2 = [] then some vr.1 else none
        | none => none) = some v
  rw [hP]
  simp [skipWs]

/-! ## Redaction preserves well-formedness, and is stable on its own output -/

theorem wf_redactVals : ∀ d : List (String × Json), wfFields (redactVals d) = true
  | [] => rfl
  | kv :: d => by simp [redactVals, wfFields, wfJson, wf_redactVals d]

theorem wf_setKV : ∀ (m : List (String × Json)) (k : String) (v : Json),
    wfFields m = true → wfJson v = true → wfFields (setKV m k v) = true
  | [], _, v, _, hv => by simp [setKV, wfFields, hv]
  | kv :: m, k, v, hm, hv => by
    simp only [wfFields, Bool.and_eq_true] at hm
    by_cases h : kv.1 = k
    · simp [setKV, h, wfFields, hv, hm.2]
    · simp [setKV, h, wfFields, hm.1, wf_setKV m k v hm.2 hv]

theorem wf_secretConceal (uri : String) (m : List (String × Json))
    (hm : wfFields m = true) : wfFields (secretConceal uri m).1 = true := by
  unfold secretConceal
  by_cases hc : strContains uri "secrets" = true
  · rw [if_pos hc]
    split
    · exact wf_setKV m "data" _ hm (wf_redactVals _)
    · split
      · exact wf_setKV m "stringData" _ hm (wf_redactVals _)
      · exact hm
  · rw [if_neg hc]
    exact hm

mutual
theorem wf_concealVal (p : String → Bool) (k : String) :
    ∀ v, wfJson v = true → wfJson (concealVal p k v).1 = true
  | .null, h => h
  | .bool _, h => h
  | .num _, h => h
  | .arr _, h => h
  | .str s, _ => by
    by_cases hp : p k <;> simp [concealVal, hp, wfJson]
  | .obj fs, h => wf_concealFields p fs h

theorem wf_concealFields (p : String → Bool) :
    ∀ fs, wfFields fs = true → wfFields (concealFields p fs).1 = true
  | [], h => h
  | kv :: fs, h => by
    simp only [wfFields, Bool.and_eq_true] at h
    simp only [concealFields, wfFields, Bool.and_eq_true]
    exact ⟨wf_concealVal p kv.1 kv.2 h.1, wf_concealFields p fs h.2⟩
end

theorem concealVal_str_redacted (p : String → Bool) (k : String) :
    (concealVal p k (.str redacted)).1 = .str redacted := by
  by_cases hp : p k <;> simp [concealVal, hp]

theorem concealFields_redactVals (p : String → Bool) :
    ∀ d, (concealFields p (redactVals d)).1 = redactVals d
  | [] => rfl
  | kv :: d => by
    simp only [redactVals, concealFields]
    rw [concealVal_str_redacted, concealFields_redactVals p d]

theorem redactVals_idem : ∀ d, redactVals (redactVals d) = redactVals d
  | [] => rfl
  | kv :: d => by simp [redactVals, redactVals_idem d]

theorem setKV_lookup_self : ∀ (m : List (String × Json)) (k : String) (v : Json),
    lookupKV m k = some v → setKV m k v = m
  | [], k, v, h => by simp [lookupKV] at h
  | kv :: m, k, v, h => by
    by_cases hk : kv.1 = k
    · simp only [lookupKV, if_pos hk] at h
      cases h
      simp only [setKV, if_pos hk]
      rw [← hk]
    · simp only [lookupKV, if_neg hk] at h
      simp only [setKV, if_neg hk]
      rw [setKV_lookup_self m k v h]

theorem concealVal_not_obj (p : String → Bool) (k : String) :
    ∀ v, (∀ fs, v ≠ Json.obj fs) → ∀ fs', (concealVal p k v).1 ≠ Json.obj fs'
  | .null, _ => fun _ h => Json.noConfusion h
  | .bool _, _ => fun _ h => Json.noConfusion h
  | .num _, _ => fun _ h => Json.noConfusion h
  | .arr _, _ => fun _ h => Json.noConfusion h
  | .str s, _ => fun fs' => by
    by_cases hp : p k <;> simp [concealVal, hp]
  | .obj fs, hno => absurd rfl (hno fs)

mutual
theorem concealVal_idem (p : String → Bool) (k : String) :
    ∀ v, (concealVal p k (concealVal p k v).1).1 = (concealVal p k v).1
  | .null => rfl
  | .bool _ => rfl
  | .num _ => rfl
  | .arr _ => rfl
  | .str s => by
    by_cases hp : p k <;> simp [concealVal, hp]
  | .obj fs => by
    simp only [concealVal]
    rw [concealFields_idem p fs]

theorem concealFields_idem (p : String → Bool) :
    ∀ fs, (concealFields p (concealFields p fs).1).1 = (concealFields p fs).1
  | [] => rfl
  | kv :: fs => by
    simp only [concealFields]
    rw [concealVal_idem p kv.1 kv.2, concealFields_idem p fs]
end

/-- Evaluation of the Secret step when `data` holds an object. -/
theorem secretConceal_data (uri : String) (m d : List (String × Json))
    (hc : strContains uri "secrets" = true)
    (hd : lookupKV m "data" = some (Json.obj d)) :
    secretConceal uri m = (setKV m "data" (Json.obj (redactVals d)), true) := by
  unfold secretConceal
  rw [if_pos hc, hd]

/-- Evaluation of the Secret step when `data` is absent or not an object and
`stringData` holds an object. -/
theorem secretConceal_stringData (uri : String) (m d : List (String × Json))
    (hc : strContains uri "secrets" = true)
    (hd : lookupKV m "data" = none ∨
      ∃ w, lookupKV m "data" = some w ∧ ∀ d', w ≠ Json.obj d')
    (hs : lookupKV m "stringData" = some (Json.obj d)) :
    secretConceal uri m = (setKV m "stringData" (Json.obj (redactVals d)), true) := by
  unfold secretConceal
  rw [if_pos hc]
  rcases hd with h0 | ⟨w, h0, hw⟩
  · rw [h0, hs]
  · rw [h0, hs]
    cases w <;> first
      | rfl
      | exact absurd rfl (hw _)

/-- Evaluation of the Secret step when neither key holds an object. -/
theorem secretConceal_skip (uri : String) (m : List (String × Json))
    (hd : lookupKV m "data" = none ∨
      ∃ w, lookupKV m "data" = some w ∧ ∀ d', w ≠ Json.obj d')
    (hs : lookupKV m "stringData" = none ∨
      ∃ w, lookupKV m "stringData" = some w ∧ ∀ d', w ≠ Json.obj d') :
    secretConceal uri m = (m, false) := by
  unfold secretConceal
  by_cases hc : strContains uri "secrets" = true
  · rw [if_pos hc]
    rcases hd with h0 | ⟨w, h0, hw⟩ <;> rcases hs with h1 | ⟨w1, h1, hw1⟩
    · rw [h0, h1]
    · rw [h0, h1]
      cases w1 <;> first
        | rfl
        | exact absurd rfl (hw1 _)
    · rw [h0, h1]
      cases w <;> first
        | rfl
        | exact absurd rfl (hw _)
    · rw [h0, h1]
      cases w <;> first
        | (cases w1 <;> first
            | rfl
            | exact absurd rfl (hw1 _))
        | exact absurd rfl (hw _)
  · rw [if_neg hc]

/-- Non-object lookups stay non-object through the key-pattern pass. -/
theorem lookup_concealFields_not_obj (p : String → Bool) (key : String)
    (m : List (String × Json))
    (h : lookupKV m key = none ∨
      ∃ w, lookupKV m key = some w ∧ ∀ d', w ≠ Json.obj d') :
    lookupKV (concealFields p m).1 key = none ∨
      ∃ w, lookupKV (concealFields p m).1 key = some w ∧ ∀ d', w ≠ Json.obj d' := by
  rw [lookupKV_concealFields]
  rcases h with h0 | ⟨w, h0, hw⟩
  · rw [h0]
    exact Or.inl rfl
  · rw [h0]
    exact Or.inr ⟨(concealVal p key w).1, rfl, concealVal_not_obj p key w hw⟩

theorem secretConceal_stable_skip (p : String → Bool) (uri : String)
    (m : List (String × Json))
    (hd : lookupKV m "data" = none ∨
      ∃ w, lookupKV m "data" = some w ∧ ∀ d', w ≠ Json.obj d')
    (hs : lookupKV m "stringData" = none ∨
      ∃ w, lookupKV m "stringData" = some w ∧ ∀ d', w ≠ Json.obj d') :
    (secretConceal uri ((concealFields p (secretConceal uri m).1).1)).1 =
      (concealFields p (secretConceal uri m).1).1 := by
  rw [secretConceal_skip uri m hd hs]
  show (secretConceal uri ((concealFields p m).1)).1 = (concealFields p m).1
  rw [secretConceal_skip uri _ (lookup_concealFields_not_obj p "data" m hd)
    (lookup_concealFields_not_obj p "stringData" m hs)]

theorem secretConceal_stable_aux (p : String → Bool) (uri : String)
    (m : List (String × Json)) (hc : strContains uri "secrets" = true)
    (hd : lookupKV m "data" = none ∨
      ∃ w, lookupKV m "data" = some w ∧ ∀ d', w ≠ Json.obj d') :
    (secretConceal uri ((concealFields p (secretConceal uri m).1).1)).1 =
      (concealFields p (secretConceal uri m).1).1 := by
  cases hs : lookupKV m "stringData" with
  | some w =>
    cases w with
    | obj d =>
      have hm1 := secretConceal_stringData uri m d hc hd hs
      have hl2 : lookupKV (concealFields p (secretConceal uri m).1).1 "stringData" =
          some (Json.obj (redactVals d)) := by
        rw [lookupKV_concealFields, hm1]
        show ((lookupKV (setKV m "stringData" (Json.obj (redactVals d))) "stringData").map
          fun v => (concealVal p "stringData" v).1) = _
        rw [lookupKV_setKV_self]
        show some (concealVal p "stringData" (Json.obj (redactVals d))).1 = _
        simp only [concealVal]
        rw [concealFields_redactVals]
      have hd2 : lookupKV (concealFields p (secretConceal uri m).1).1 "data" = none ∨
          ∃ w, lookupKV (concealFields p (secretConceal uri m).1).1 "data" = some w ∧
            ∀ d', w ≠ Json.obj d' := by
        apply lookup_concealFields_not_obj
        rw [hm1]
        show lookupKV (setKV m "stringData" (Json.obj (redactVals d))) "data" = none ∨ _
        rw [lookupKV_setKV_ne "stringData" "data" _ (by decide)]
        exact hd
      rw [secretConceal_stringData uri _ (redactVals d) hc hd2 hl2]
      show setKV _ "stringData" (Json.obj (redactVals (redactVals d))) = _
      rw [redactVals_idem]
      exact setKV_lookup_self _ _ _ hl2
    | null =>
      exact secretConceal_stable_skip p uri m hd
        (Or.inr ⟨_, hs, fun _ h => Json.noConfusion h⟩)
    | bool b =>
      exact secretConceal_stable_skip p uri m hd
        (Or.inr ⟨_, hs, fun _ h => Json.noConfusion h⟩)
    | num t =>
      exact secretConceal_stable_skip p uri m hd
        (Or.inr ⟨_, hs, fun _ h => Json.noConfusion h⟩)
    | str s =>
      exact secretConceal_stable_skip p uri m hd
        (Or.inr ⟨_, hs, fun _ h => Json.noConfusion h⟩)
    | arr es =>
      exact secretConceal_stable_skip p uri m hd
        (Or.inr ⟨_, hs, fun _ h => Json.noConfusion h⟩)
  | none => exact secretConceal_stable_skip p uri m hd (Or.inl hs)

/-- The Secret step is the identity on a map that has already gone through
one full redaction pass. -/
theorem secretConceal_stable (p : String → Bool) (uri : String)
    (m : List (String × Json)) :
    (secretConceal uri ((concealFields p (secretConceal uri m).1).1)).1 =
      (concealFields p (secretConceal uri m).1).1 := by
  by_cases hc : strContains uri "secrets" = true
  · cases hd : lookupKV m "data" with
    | some w =>
      cases w with
      | obj d =>
        have hm1 := secretConceal_data uri m d hc hd
        have hl2 : lookupKV (concealFields p (secretConceal uri m).1).1 "data" =
            some (Json.obj (redactVals d)) := by
          rw [lookupKV_concealFields, hm1]
          show ((lookupKV (setKV m "data" (Json.obj (redactVals d))) "data").map
            fun v => (concealVal p "data" v).1) = _
          rw [lookupKV_setKV_self]
          show some (concealVal p "data" (Json.obj (redactVals d))).1 = _
          simp only [concealVal]
          rw [concealFields_redactVals]
        rw [secretConceal_data uri _ (redactVals d) hc hl2]
        show setKV _ "data" (Json.obj (redactVals (redactVals d))) = _
        rw [redactVals_idem]
        exact setKV_lookup_self _ _ _ hl2
      | null => exact secretConceal_stable_aux p uri m hc (Or.inr ⟨_, hd, fun _ h => Json.noConfusion h⟩)
      | bool b => exact secretConceal_stable_aux p uri m hc (Or.inr ⟨_, hd, fun _ h => Json.noConfusion h⟩)
      | num t => exact secretConceal_stable_aux p uri m hc (Or.inr ⟨_, hd, fun _ h => Json.noConfusion h⟩)
      | str s => exact secretConceal_stable_aux p uri m hc (Or.inr ⟨_, hd, fun _ h => Json.noConfusion h⟩)
      | arr es => exact secretConceal_stable_aux p uri m hc (Or.inr ⟨_, hd, fun _ h => Json.noConfusion h⟩)
    | none => exact secretConceal_stable_aux p uri m hc (Or.inl hd)
  · have h2 : ∀ m' : List (String × Json), secretConceal uri m' = (m', false) := by
      intro m'
      unfold secretConceal
      rw [if_neg hc]
    rw [h2]

/-- A second full redaction pass computes the same map as the first. -/
theorem conceal_pass2 (p : String → Bool) (uri : String) (m : List (String × Json)) :
    (concealFields p (secretConceal uri
        ((concealFields p (secretConceal uri m).1).1)).1).1 =
      (concealFields p (secretConceal uri m).1).1 := by
  rw [secretConceal_stable]
  exact concealFields_idem p _

/-- C9: redaction is idempotent — for every configured key pattern, every
request path and every body, applying `concealSensitiveData` to its own
output (same path and pattern) produces byte-identical output. -/
theorem claim9_idempotent (p : String → Bool) (uri body : String) :
    concealSensitiveData p uri (concealSensitiveData p uri body) =
      concealSensitiveData p uri body := by
  cases hp : parseTop body with
  | none =>
    have h1 : concealSensitiveData p uri body = body := by
      unfold concealSensitiveData
      rw [hp]
    rw [h1]
    exact h1
  | some v =>
    cases v with
    | null =>
      have h1 : concealSensitiveData p uri body = body := by
        unfold concealSensitiveData
        rw [hp]
      rw [h1]
      exact h1
    | bool b =>
      have h1 : concealSensitiveData p uri body = body := by
        unfold concealSensitiveData
        rw [hp]
      rw [h1]
      exact h1
    | num t =>
      have h1 : concealSensitiveData p uri body = body := by
        unfold concealSensitiveData
        rw [hp]
      rw [h1]
      exact h1
    | str s =>
      have h1 : concealSensitiveData p uri body = body := by
        unfold concealSensitiveData
        rw [hp]
      rw [h1]
      exact h1
    | arr es =>
      have h1 : concealSensitiveData p uri body = body := by
        unfold concealSensitiveData
        rw [hp]
      rw [h1]
      exact h1
    | obj m =>
      by_cases hflag : (concealFields p (secretConceal uri m).1).2 = false ∧
          (secretConceal uri m).2 = false
      · have h1 : concealSensitiveData p uri body = body := by
          unfold concealSensitiveData
          rw [hp]
          dsimp only
          rw [if_pos hflag]
        rw [h1]
        exact h1
      · have hout : concealSensitiveData p uri body =
            (Json.obj (concealFields p (secretConceal uri m).1).1).serialize := by
          unfold concealSensitiveData
          rw [hp]
          dsimp only
          rw [if_neg hflag]
        have hwfm : wfFields m = true := parseTop_wf body (.obj m) hp
        have hwf2 : wfFields (concealFields p (secretConceal uri m).1).1 = true :=
          wf_concealFields p _ (wf_secretConceal uri m hwfm)
        have hparse : parseTop
            ((Json.obj (concealFields p (secretConceal uri m).1).1).serialize) =
            some (Json.obj (concealFields p (secretConceal uri m).1).1) :=
          parseTop_serialize _ hwf2
        rw [hout]
        unfold concealSensitiveData
        rw [hparse]
        dsimp only
        split
        · rfl
        · rw [conceal_pass2]

theorem trimSuffix_serialize_obj (fs : List (String × Json)) :
    trimSuffix ((Json.obj fs).serialize) "\x7d" = ⟨'{' :: Json.serFields fs⟩ := by
  have h1 : (Json.obj fs).serialize = ⟨('{' :: Json.serFields fs) ++ ['}']⟩ := rfl
  have h2 : ("\x7d" : String) = ⟨['}']⟩ := rfl
  rw [h1, h2, trimSuffix_append_one]

theorem data_append_head (s t : String) (c : Char) (l : List Char)
    (h : s.data = c :: l) : (s ++ t).data = c :: (l ++ t.data) := by
  rw [String.data_append, h, List.cons_append]

/-- The assembled record buffer always begins with an opening brace. -/
theorem writeBuffer_head (level : Nat) (p : String → Bool) (rec : LogRec)
    (reqBody respCT resBody : String) :
    ∃ l, (writeBuffer level p rec reqBody respCT resBody).data = '{' :: l := by
  rw [writeBuffer_eq]
  have h0 : (trimSuffix ((logToJson rec).serialize) "\x7d").data =
      '{' :: Json.serFields (logFields rec) := by
    show (trimSuffix ((Json.obj (logFields rec)).serialize) "\x7d").data = _
    rw [trimSuffix_serialize_obj]
  exact ⟨_, data_append_head _ _ '{' _ (data_append_head _ _ '{' _
    (data_append_head _ _ '{' _ h0))⟩

/-- A successfully parsed document whose text begins with a brace is an
object. -/
theorem parseTop_obj_head (s : String) (v : Json) (l : List Char)
    (hd : s.data = '{' :: l) (h : parseTop s = some v) :
    ∃ fs, v = Json.obj fs := by
  unfold parseTop at h
  rw [hd] at h
  cases hpv : parseVal (('{' :: l).length + 1) ('{' :: l) with
  | none => rw [hpv] at h; exact Option.noConfusion h
  | some vr =>
    rw [hpv] at h
    dsimp only at h
    have hv : v = vr.1 := by
      by_cases hsw : skipWs vr.2 = []
      · rw [if_pos hsw] at h
        injection h with h3
        exact h3.symm
      · rw [if_neg hsw] at h
        exact Option.noConfusion h
    subst hv
    have hlen : (('{' :: l).length + 1) = l.length + 1 + 1 := by simp
    rw [hlen] at hpv
    unfold parseVal at hpv
    rw [skipWs_not _ _ (by decide)] at hpv
    dsimp only at hpv
    rw [if_pos rfl] at hpv
    repeat' split at hpv
    all_goals
      first
      | exact Option.noConfusion hpv
      | (injection hpv with h2
         exact ⟨_, by rw [← h2]⟩)

/-- C7: the compaction step of `write` (`json.Compact`) validates the
assembled buffer.  If the buffer is not valid JSON, `write` returns the
"compact audit log json failed" error and nothing is written to the sink
(in the model the returned line exists only in the `.ok` case; in the Go
code `a.writer.Output.Write` is only reached after compaction succeeds).
Conversely every line that is written is the compact serialization of a
JSON object followed by a single newline — syntactically valid JSON even
when all optional fields are absent. -/
theorem claim7_compact_validity (level : Nat) (p : String → Bool) (rec : LogRec)
    (reqBody : String) (userInfo : Option User) (reqHeaders resHeaders : Headers)
    (respTimestamp : String) (resCode : Nat) (resBody : String) :
    (parseTop (writeBuffer level p
        { rec with
          user := userInfo
          responseTimestamp := respTimestamp
          requestHeader := filterOutHeaders reqHeaders sensitiveRequestHeader
          responseHeader := filterOutHeaders resHeaders sensitiveResponseHeader
          responseCode := resCode }
        reqBody (headerGet resHeaders "Content-Type") resBody) = none →
      auditWrite level p rec reqBody userInfo reqHeaders resHeaders respTimestamp
        resCode resBody = .error "compact audit log json failed") ∧
    (∀ line, auditWrite level p rec reqBody userInfo reqHeaders resHeaders
        respTimestamp resCode resBody = .ok line →
      ∃ fs, line = (Json.obj fs).serialize ++ "\n" ∧
        parseTop ((Json.obj fs).serialize) = some (Json.obj fs)) := by
  constructor
  · intro hfail
    unfold auditWrite
    dsimp only
    rw [hfail]
  · intro line hok
    unfold auditWrite at hok
    dsimp only at hok
    cases hpt : parseTop (writeBuffer level p
        { rec with
          user := userInfo
          responseTimestamp := respTimestamp
          requestHeader := filterOutHeaders reqHeaders sensitiveRequestHeader
          responseHeader := filterOutHeaders resHeaders sensitiveResponseHeader
          responseCode := resCode }
        reqBody (headerGet resHeaders "Content-Type") resBody) with
    | none =>
      rw [hpt] at hok
      exact Except.noConfusion hok
    | some v =>
      rw [hpt] at hok
      injection hok with h2
      obtain ⟨l, hl⟩ := writeBuffer_head level p
        { rec with
          user := userInfo
          responseTimestamp := respTimestamp
          requestHeader := filterOutHeaders reqHeaders sensitiveRequestHeader
          responseHeader := filterOutHeaders resHeaders sensitiveResponseHeader
          responseCode := resCode }
        reqBody (headerGet resHeaders "Content-Type") resBody
      obtain ⟨fs, hfs⟩ := parseTop_obj_head _ v l hl hpt
      subst hfs
      exact ⟨fs, h2.symm, parseTop_serialize _ (parseTop_wf _ _ hpt)⟩

set_option maxRecDepth 10000 in
theorem claim7_witness :
    auditWrite levelRequest (fun k => k == "password")
      (LogRec.mk "id1" "/v3/x" none "POST" "" "t0" "" 0 [] [])
      "oops" none [] [] "t1" 200 "" = .error "compact audit log json failed" ∧
    ∃ line, auditWrite levelMetadata (fun k => k == "password")
        (LogRec.mk "id1" "/v3/x" none "POST" "" "t0" "" 0 [] [])
        "" none [] [] "t1" 200 "" = .ok line ∧
      ∃ fs, line = (Json.obj fs).serialize ++ "\n" ∧
        parseTop ((Json.obj fs).serialize) = some (Json.obj fs) :=
  ⟨(claim7_compact_validity levelRequest (fun k => k == "password")
      (LogRec.mk "id1" "/v3/x" none "POST" "" "t0" "" 0 [] [])
      "oops" none [] [] "t1" 200 "").1 rfl,
    ⟨_, rfl,
      (claim7_compact_validity levelMetadata (fun k => k == "password")
        (LogRec.mk "id1" "/v3/x" none "POST" "" "t0" "" 0 [] [])
        "" none [] [] "t1" 200 "").2 _ rfl⟩⟩

end Audit
